import Mathlib

/-!
Shallow embedding of the moment signal/slot library
(src/moment/include/moment/Signal.hpp, the canonical variant).

Objects live in explicit stores: ConnectionData records in an append-only
list (a RecPtr is the index, playing the role of the shared_ptr identity),
Signal objects in a list of Option SigState (none = destroyed).  The
static std::atomic uint64_t id counter of Signal::connectLocked is a
field of the world.  Machine integers are Nat with explicit mod 2^32 /
mod 2^64 where the C++ types truncate.
-/

namespace Moment

/-- Index of a ConnectionData record in the append-only record store; this is
the identity of the shared_ptr that Signal and Connection handles share. -/
abbrev RecPtr := Nat

/-- Index of a Signal object in the signal store (its address). -/
abbrev SigPtr := Nat

/-- Label identifying a stored slot callable; the model interprets slot bodies
only where a claim needs their behavior. -/
abbrev SlotId := Nat

/-- Value of uint32_t overflow modulus. -/
def U32 : Nat := 2 ^ 32

/-- Value of uint64_t overflow modulus. -/
def U64 : Nat := 2 ^ 64

/-- Model of Connection::ConnectionData: the record shared between the Signal
collection and all Connection handles.  Fields mirror the members
_signal, _valid, _slot, _id (the stored id is a uint32_t). -/
structure ConnectionData where
  signal : SigPtr
  valid : Bool
  slot : SlotId
  id : Nat
deriving DecidableEq

/-- Model of ConnectionData::invalidate: sets _valid to false. -/
def ConnectionData.invalidate (c : ConnectionData) : ConnectionData :=
  { c with valid := false }

/-- Model of ConnectionData::updateSignal: repoints _signal. -/
def ConnectionData.updateSignal (c : ConnectionData) (s : SigPtr) : ConnectionData :=
  { c with signal := s }

/-- Model of the Signal object state: _connections (shared_ptr identities, in
insertion order) and _valid. -/
structure SigState where
  connections : List RecPtr
  valid : Bool
deriving DecidableEq

/-- The world: record store (append-only), signal store (none = destroyed),
and the static atomic uint64_t id counter of Signal::connectLocked. -/
structure World where
  records : List ConnectionData
  signals : List (Option SigState)
  counter : Nat
deriving DecidableEq

/-! List-store helpers. -/

/-- Lookup by index. -/
def nth : List α → Nat → Option α
  | [], _ => none
  | a :: _, 0 => some a
  | _ :: as, n + 1 => nth as n

/-- Overwrite the element at an index (no-op out of range). -/
def setNth : List α → Nat → α → List α
  | [], _, _ => []
  | _ :: as, 0, b => b :: as
  | a :: as, n + 1, b => a :: setNth as n b

/-- Apply a function to the element at an index (no-op out of range). -/
def modNth (f : α → α) : List α → Nat → List α
  | [], _ => []
  | a :: as, 0 => f a :: as
  | a :: as, n + 1 => a :: modNth f as n

/-! World accessors. -/

/-- Dereference a shared_ptr to a ConnectionData record. -/
def World.record? (w : World) (p : RecPtr) : Option ConnectionData :=
  nth w.records p

/-- Dereference a Signal pointer; none when the Signal has been destroyed (or
never existed). -/
def World.signal? (w : World) (s : SigPtr) : Option SigState :=
  match nth w.signals s with
  | some (some sig) => some sig
  | _ => none

/-- Overwrite the state stored at a Signal address. -/
def World.setSig (w : World) (s : SigPtr) (o : Option SigState) : World :=
  { w with signals := setNth w.signals s o }

/-- Mutate one ConnectionData record in place. -/
def World.modifyRec (w : World) (p : RecPtr) (f : ConnectionData → ConnectionData) : World :=
  { w with records := modNth f w.records p }

/-- Mutate a batch of records in place, in list order (used for the
loops in disconnectAllLocked and the move operations, which visit the
collection via forEachConnection). -/
def mapRecs (w : World) (ps : List RecPtr) (f : ConnectionData → ConnectionData) : World :=
  ps.foldl (fun acc p => acc.modifyRec p f) w

/-- The slot stored in a record (0 when the pointer is dangling; the operations
never produce a dangling record pointer). -/
def World.slotOf (w : World) (p : RecPtr) : SlotId :=
  match w.record? p with
  | some r => r.slot
  | none => 0

/-! The Signal operations, one definition per source function. -/

/-- Model of Signal::connectLocked: asserts _valid (modeled as none on
failure), reads and post-increments the static atomic uint64_t counter,
builds a ConnectionData whose stored id is the counter value truncated to
uint32_t (buildConnection and ConnectionData::_id take uint32_t), appends the
shared record to _connections, and returns the new handle (the record
pointer). -/
def Signal.connectLocked (w : World) (s : SigPtr) (slot : SlotId) : Option (World × RecPtr) :=
  match w.signal? s with
  | none => none
  | some sig =>
    if sig.valid then
      some ((World.mk (w.records ++ [⟨s, true, slot, w.counter % U32⟩]) w.signals
          ((w.counter + 1) % U64)).setSig s
          (some { sig with connections := sig.connections ++ [w.records.length] }),
        w.records.length)
    else none

/-- Model of Signal::connect(Slot&&): takes the state lock, then
connectLocked. -/
def Signal.connect (w : World) (s : SigPtr) (slot : SlotId) : Option (World × RecPtr) :=
  Signal.connectLocked w s slot

/-- Model of Signal::disconnectLocked: asserts _valid, then std::find of the
connection's shared_ptr in _connections (identity comparison, first
occurrence); if found, invalidates the record, erases it from the collection
and returns true; otherwise returns false with no side effect. -/
def Signal.disconnectLocked (w : World) (s : SigPtr) (p : RecPtr) : Option (World × Bool) :=
  match w.signal? s with
  | none => none
  | some sig =>
    if sig.valid then
      if p ∈ sig.connections then
        some (((w.modifyRec p ConnectionData.invalidate).setSig s
          (some { sig with connections := sig.connections.erase p })), true)
      else some (w, false)
    else none

/-- Model of Signal::disconnect(Connection&): takes the state lock, then
disconnectLocked. -/
def Signal.disconnect (w : World) (s : SigPtr) (p : RecPtr) : Option (World × Bool) :=
  Signal.disconnectLocked w s p

/-- Model of Signal::disconnectAllLocked: forEachConnection (reverse
iteration) invalidating every record, then clears _connections.  It does not
assert _valid (the destructor and the move operations call it
unconditionally). -/
def Signal.disconnectAllLocked (w : World) (s : SigPtr) : World :=
  match w.signal? s with
  | none => w
  | some sig =>
    (mapRecs w sig.connections.reverse ConnectionData.invalidate).setSig s
      (some { sig with connections := [] })

/-- Model of the Signal destructor: disconnectAllLocked under the lock, after
which the object's storage is released.  Note the destructor does not null
the records' _signal back-pointers, so they dangle. -/
def Signal.destroy (w : World) (s : SigPtr) : World :=
  (Signal.disconnectAllLocked w s).setSig s none

/-- Shared body of the Signal move constructor and move assignment: locks
both objects, disconnectAllLocked on the destination, steals the source's
_connections, clears the source and marks it invalid, marks the destination
valid, and repoints every stolen record's _signal at the destination via
forEachConnection / ConnectionData::updateSignal. -/
def Signal.moveBody (w : World) (dst src : SigPtr) : World :=
  match (Signal.disconnectAllLocked w dst).signal? src,
      (Signal.disconnectAllLocked w dst).signal? dst with
  | some sigs, some sigd =>
    mapRecs
      (((Signal.disconnectAllLocked w dst).setSig dst
          (some { sigd with connections := sigs.connections, valid := true })).setSig src
        (some { sigs with connections := [], valid := false }))
      sigs.connections.reverse (fun r => r.updateSignal dst)
  | _, _ => Signal.disconnectAllLocked w dst

/-- Model of Signal::operator=(Signal&&). -/
def Signal.moveAssign (w : World) (dst src : SigPtr) : World :=
  Signal.moveBody w dst src

/-- Model of Signal::Signal(Signal&&): the new object is allocated fresh
(default members: empty _connections, _valid true) and then runs the same
body as move assignment. -/
def Signal.moveConstruct (w : World) (src : SigPtr) : World × SigPtr :=
  (Signal.moveBody { w with signals := w.signals ++ [some ⟨[], true⟩] }
    w.signals.length src, w.signals.length)

/-! Connection handle operations.  A Connection holds exactly one member, the
shared_ptr _sharedConnectionData, so a handle is modeled by the record
pointer; the copy constructor copies the shared_ptr. -/

/-- Model of the Connection copy constructor: the copy holds the same
_sharedConnectionData. -/
def Connection.copy (p : RecPtr) : RecPtr := p

/-- Model of Connection::valid / ConnectionData::valid: reads _valid under
the record's lock.  The record is kept alive by the handle's shared_ptr, so
the lookup succeeds for every pointer a connect produced. -/
def Connection.valid (w : World) (p : RecPtr) : Option Bool :=
  (w.record? p).map ConnectionData.valid

/-- Model of Connection::id / ConnectionData::id: reads the stored uint32_t
_id. -/
def Connection.idOf (w : World) (p : RecPtr) : Option Nat :=
  (w.record? p).map ConnectionData.id

/-- Model of Connection::operator==: compares the two records' stored ids. -/
def Connection.beq (w : World) (p q : RecPtr) : Option Bool :=
  match Connection.idOf w p, Connection.idOf w q with
  | some i, some j => some (i == j)
  | _, _ => none

/-- Model of Connection::disconnect / ConnectionData::disconnect: rebuilds a
handle via shared_from_this and calls _signal->disconnect(connection) through
the stored back-pointer.  When the owning Signal has been destroyed the
back-pointer dangles and the call dereferences freed memory: undefined
behavior, modeled as none. -/
def Connection.disconnect (w : World) (p : RecPtr) : Option (World × Bool) :=
  match w.record? p with
  | none => none
  | some r =>
    match w.signal? r.signal with
    | none => none
    | some _ => Signal.disconnect w r.signal p

/-! Emission.  Signal::operator() takes the state lock, asserts _valid, and
forEachConnection iterates _connections in reverse (rbegin to rend), invoking
ConnectionData::call on each record with the one argument tuple built from
the emitted arguments.  ConnectionData::call asserts the record is valid and
runs the stored slot; a failure raised by the slot propagates out (the
lock_guard unwinds), aborting the remaining calls of that emission; the
collection is never modified by emission. -/

/-- Outcome of an emission. -/
inductive EmitResult (ε : Type) where
  | ok
  | slotFail (e : ε)
  | assertFail
deriving DecidableEq

/-- The calls performed by one emission over a pointer list, given an
interpretation of slot bodies: each record is checked valid (the assert in
ConnectionData::call) and its slot is run on the emitted argument; a slot
failure stops the iteration. -/
def callAll (w : World) (interp : SlotId → α → Except ε Unit) (a : α) :
    List RecPtr → List (SlotId × α) × EmitResult ε
  | [] => ([], EmitResult.ok)
  | p :: rest =>
    match w.record? p with
    | none => ([], EmitResult.assertFail)
    | some r =>
      if r.valid then
        match interp r.slot a with
        | Except.ok _ =>
          ((r.slot, a) :: (callAll w interp a rest).1, (callAll w interp a rest).2)
        | Except.error e => ([(r.slot, a)], EmitResult.slotFail e)
      else ([], EmitResult.assertFail)

/-- Model of Signal::operator(): asserts _valid, then calls every connection
in reverse collection order with the same argument.  The returned world is
the resulting state (emission performs no mutation). -/
def Signal.emitRun (w : World) (s : SigPtr) (interp : SlotId → α → Except ε Unit) (a : α) :
    World × List (SlotId × α) × EmitResult ε :=
  match w.signal? s with
  | none => (w, [], EmitResult.assertFail)
  | some sig =>
    if sig.valid then (w, callAll w interp a sig.connections.reverse)
    else (w, [], EmitResult.assertFail)

/-! Sequential traces of the public operations. -/

/-- A public operation applied to the world. -/
inductive Op where
  | connect (s : SigPtr) (slot : SlotId)
  | sigDisconnect (s : SigPtr) (p : RecPtr)
  | connDisconnect (p : RecPtr)
  | disconnectAll (s : SigPtr)
  | destroy (s : SigPtr)
  | moveAssign (dst src : SigPtr)
  | moveConstruct (src : SigPtr)
  | emit (s : SigPtr)
deriving DecidableEq

/-- One step of the sequential semantics; none models undefined behavior or
a tripped assert (calling a method of a destroyed object, self move-assign,
emitting with an invalid record in the collection, ...). -/
def step (w : World) : Op → Option World
  | Op.connect s slot => (Signal.connect w s slot).map Prod.fst
  | Op.sigDisconnect s p => (Signal.disconnect w s p).map Prod.fst
  | Op.connDisconnect p => (Connection.disconnect w p).map Prod.fst
  | Op.disconnectAll s =>
    match w.signal? s with
    | some _ => some (Signal.disconnectAllLocked w s)
    | none => none
  | Op.destroy s =>
    match w.signal? s with
    | some _ => some (Signal.destroy w s)
    | none => none
  | Op.moveAssign dst src =>
    if dst = src then none
    else
      match w.signal? dst, w.signal? src with
      | some _, some _ => some (Signal.moveAssign w dst src)
      | _, _ => none
  | Op.moveConstruct src =>
    match w.signal? src with
    | some _ => some (Signal.moveConstruct w src).1
    | none => none
  | Op.emit s =>
    match w.signal? s with
    | some sig =>
      if sig.valid && sig.connections.all (fun p =>
          match w.record? p with
          | some r => r.valid
          | none => false) then some w
      else none
    | none => none

/-- Run a trace of operations. -/
def run (w : World) : List Op → Option World
  | [] => some w
  | op :: ops =>
    match step w op with
    | some w1 => run w1 ops
    | none => none

/-- Whether one operation, applied in the given world, invalidates the record
at pointer p (through any of the disconnect paths: Signal::disconnect,
Connection::disconnect, disconnect-all, destruction, or the destination-side
disconnect-all inside move assignment). -/
def hits (w : World) (op : Op) (p : RecPtr) : Bool :=
  match op with
  | Op.connect _ _ => false
  | Op.sigDisconnect s q =>
    q == p &&
      (match w.signal? s with
       | some sig => decide (p ∈ sig.connections)
       | none => false)
  | Op.connDisconnect q =>
    q == p &&
      (match w.record? q with
       | some r =>
         match w.signal? r.signal with
         | some sig => decide (p ∈ sig.connections)
         | none => false
       | none => false)
  | Op.disconnectAll s =>
    match w.signal? s with
    | some sig => decide (p ∈ sig.connections)
    | none => false
  | Op.destroy s =>
    match w.signal? s with
    | some sig => decide (p ∈ sig.connections)
    | none => false
  | Op.moveAssign dst _ =>
    match w.signal? dst with
    | some sig => decide (p ∈ sig.connections)
    | none => false
  | Op.moveConstruct _ => false
  | Op.emit _ => false

/-- Whether any operation of a trace invalidates the record at pointer p
(none when the trace itself faults). -/
def hitsAlong (w : World) (p : RecPtr) : List Op → Option Bool
  | [] => some false
  | op :: ops =>
    match step w op with
    | none => none
    | some w1 => (hitsAlong w1 p ops).map (fun b => hits w op p || b)

/-- A world with one fresh Signal and no connections. -/
def initWorld : World := ⟨[], [some ⟨[], true⟩], 0⟩

/-- Iterated Signal::connect of slot 0 on the initial signal (used to trace
the id counter through many connects). -/
def connectN : Nat → World
  | 0 => initWorld
  | n + 1 =>
    match Signal.connect (connectN n) 0 0 with
    | some (w1, _) => w1
    | none => connectN n

/-! Lock model of the emission path.  Both Signal and ConnectionData guard
their state with std::lock_guard over a plain (non-recursive) std::mutex;
locking a mutex the thread already holds does not return (deadlock). -/

/-- The mutexes of the emission path: the Signal's _stateMutex and each
ConnectionData's _stateMutex. -/
inductive LockId where
  | sigLock (s : SigPtr)
  | recLock (p : RecPtr)
deriving DecidableEq

/-- Model of std::lock_guard construction on a non-recursive std::mutex:
none (deadlock) when the calling thread already holds the mutex. -/
def acquire (held : List LockId) (l : LockId) : Option (List LockId) :=
  if l ∈ held then none else some (l :: held)

/-- What a slot body does when invoked, for the lock model. -/
inductive SlotAct where
  | inert
  | selfDisconnect
deriving DecidableEq

/-- Lock operations a slot body performs while running inside
ConnectionData::call during an emission on signal s.  A self-disconnecting
slot runs Connection::disconnect on its own handle: ConnectionData::disconnect
reads _signal (no lock) and calls Signal::disconnect, which constructs a
lock_guard on the signal's _stateMutex; if that returns and the record is
found, disconnectLocked invokes ConnectionData::invalidate, which constructs
a lock_guard on the record's own _stateMutex. -/
def runSlotLocks (s : SigPtr) (p : RecPtr) (held : List LockId) :
    SlotAct → Option (List LockId)
  | SlotAct.inert => some held
  | SlotAct.selfDisconnect =>
    match acquire held (LockId.sigLock s) with
    | none => none
    | some h1 =>
      match acquire h1 (LockId.recLock p) with
      | none => none
      | some h2 => some h2

/-- Lock operations of the forEachConnection loop of Signal::operator():
ConnectionData::call constructs a lock_guard on the record's _stateMutex,
runs the slot body under it, and releases it when the call returns. -/
def callLocks (s : SigPtr) (held : List LockId) :
    List (RecPtr × SlotAct) → Option Unit
  | [] => some ()
  | (p, act) :: rest =>
    match acquire held (LockId.recLock p) with
    | none => none
    | some h1 =>
      match runSlotLocks s p h1 act with
      | none => none
      | some _ => callLocks s held rest

/-- Lock operations of Signal::operator() emitting on signal s whose
collection holds the given records with the given slot behaviors:
a lock_guard on the signal's _stateMutex is constructed first and is held
across the whole forEachConnection loop, slots included. -/
def Signal.emitLocks (s : SigPtr) (conns : List (RecPtr × SlotAct)) : Option Unit :=
  match acquire [] (LockId.sigLock s) with
  | none => none
  | some h1 => callLocks s h1 conns.reverse

/-! Well-formedness: the invariant of claim C6.  Every record reachable from
a live Signal's collection is valid and carries that Signal as its
back-pointer (so a record is reachable from at most one Signal), and the
collection holds no duplicates. -/

/-- One Signal's part of the invariant. -/
def World.SigWF (w : World) (s : SigPtr) (sig : SigState) : Prop :=
  sig.connections.Nodup ∧
  ∀ p ∈ sig.connections, ∃ r, w.record? p = some r ∧ r.valid = true ∧ r.signal = s

/-- The invariant: every reachable Signal state is well formed. -/
def World.WF (w : World) : Prop :=
  ∀ s sig, w.signal? s = some sig → World.SigWF w s sig

/-- Decidable check equivalent to the invariant (the quantifier over Signal
addresses is bounded by the store). -/
def wfb (w : World) : Bool :=
  (List.range w.signals.length).all (fun s =>
    match w.signal? s with
    | some sig =>
      decide sig.connections.Nodup &&
        sig.connections.all (fun p =>
          match w.record? p with
          | some r => r.valid && (r.signal == s)
          | none => false)
    | none => true)

/-! Concrete worlds used by witnesses and counterexamples, built through the
operations themselves. -/

/-- The world after connecting slot 7 on the initial signal. -/
def demoWorld1 : World :=
  ((Signal.connect initWorld 0 7).map Prod.fst).getD initWorld

/-- The world after connecting slots 7 then 8 on the initial signal. -/
def demoWorld2 : World :=
  ((Signal.connect demoWorld1 0 8).map Prod.fst).getD demoWorld1

/-- The world after move-constructing a second Signal from the one-connection
signal of demoWorld1 (two signal objects: address 0 moved-from, address 1
holding the connection). -/
def demoWorld3 : World := (Signal.moveConstruct demoWorld1 0).1

/-! Store lemmas. -/

theorem nth_lt_length {l : List α} {i : Nat} {a : α} (h : nth l i = some a) :
    i < l.length := by
  induction l generalizing i with
  | nil => simp [nth] at h
  | cons b bs ih =>
    cases i with
    | zero => simp
    | succ n => simpa using Nat.succ_lt_succ (ih h)

theorem nth_of_lt_length {l : List α} {i : Nat} (h : i < l.length) :
    ∃ a, nth l i = some a := by
  induction l generalizing i with
  | nil => simp at h
  | cons b bs ih =>
    cases i with
    | zero => exact ⟨b, rfl⟩
    | succ n => exact ih (Nat.lt_of_succ_lt_succ h)

theorem nth_ge_length {l : List α} {i : Nat} (h : l.length ≤ i) :
    nth l i = none := by
  induction l generalizing i with
  | nil => rfl
  | cons b bs ih =>
    cases i with
    | zero => simp at h
    | succ n => exact ih (Nat.le_of_succ_le_succ h)

theorem length_setNth (l : List α) (i : Nat) (a : α) :
    (setNth l i a).length = l.length := by
  induction l generalizing i with
  | nil => rfl
  | cons b bs ih =>
    cases i with
    | zero => rfl
    | succ n => simpa [setNth] using ih n

theorem length_modNth (f : α → α) (l : List α) (i : Nat) :
    (modNth f l i).length = l.length := by
  induction l generalizing i with
  | nil => rfl
  | cons b bs ih =>
    cases i with
    | zero => rfl
    | succ n => simpa [modNth] using ih n

theorem nth_setNth_self {l : List α} {i : Nat} (h : i < l.length) (a : α) :
    nth (setNth l i a) i = some a := by
  induction l generalizing i with
  | nil => simp at h
  | cons b bs ih =>
    cases i with
    | zero => rfl
    | succ n => exact ih (Nat.lt_of_succ_lt_succ h)

theorem nth_setNth_ne {l : List α} {i j : Nat} (h : j ≠ i) (a : α) :
    nth (setNth l i a) j = nth l j := by
  induction l generalizing i j with
  | nil => rfl
  | cons b bs ih =>
    cases i with
    | zero =>
      cases j with
      | zero => exact absurd rfl h
      | succ m => rfl
    | succ n =>
      cases j with
      | zero => rfl
      | succ m => exact ih (fun hh => h (by rw [hh]))

theorem nth_modNth_self (f : α → α) (l : List α) (i : Nat) :
    nth (modNth f l i) i = (nth l i).map f := by
  induction l generalizing i with
  | nil => rfl
  | cons b bs ih =>
    cases i with
    | zero => rfl
    | succ n => exact ih n

theorem nth_modNth_ne (f : α → α) {l : List α} {i j : Nat} (h : j ≠ i) :
    nth (modNth f l i) j = nth l j := by
  induction l generalizing i j with
  | nil => rfl
  | cons b bs ih =>
    cases i with
    | zero =>
      cases j with
      | zero => exact absurd rfl h
      | succ m => rfl
    | succ n =>
      cases j with
      | zero => rfl
      | succ m => exact ih (fun hh => h (by rw [hh]))

theorem nth_append_left {l l2 : List α} {i : Nat} (h : i < l.length) :
    nth (l ++ l2) i = nth l i := by
  induction l generalizing i with
  | nil => simp at h
  | cons b bs ih =>
    cases i with
    | zero => rfl
    | succ n => exact ih (Nat.lt_of_succ_lt_succ h)

theorem nth_append_length (l : List α) (a : α) :
    nth (l ++ [a]) l.length = some a := by
  induction l with
  | nil => rfl
  | cons b bs ih => simpa using ih

/-! Accessor lemmas. -/

theorem signal?_setSig_self {w : World} {s : SigPtr} (h : s < w.signals.length)
    (o : Option SigState) : (w.setSig s o).signal? s = o := by
  cases o with
  | none => simp [World.signal?, World.setSig, nth_setNth_self h]
  | some sig => simp [World.signal?, World.setSig, nth_setNth_self h]

theorem signal?_setSig_ne {w : World} {s t : SigPtr} (h : t ≠ s) (o : Option SigState) :
    (w.setSig s o).signal? t = w.signal? t := by
  simp [World.signal?, World.setSig, nth_setNth_ne h]

theorem record?_setSig (w : World) (s : SigPtr) (o : Option SigState) (p : RecPtr) :
    (w.setSig s o).record? p = w.record? p := rfl

theorem counter_setSig (w : World) (s : SigPtr) (o : Option SigState) :
    (w.setSig s o).counter = w.counter := rfl

theorem signals_length_setSig (w : World) (s : SigPtr) (o : Option SigState) :
    (w.setSig s o).signals.length = w.signals.length :=
  length_setNth w.signals s o

theorem record?_modifyRec_self (w : World) (p : RecPtr) (f : ConnectionData → ConnectionData) :
    (w.modifyRec p f).record? p = (w.record? p).map f :=
  nth_modNth_self f w.records p

theorem record?_modifyRec_ne {w : World} {p q : RecPtr} (h : q ≠ p)
    (f : ConnectionData → ConnectionData) :
    (w.modifyRec p f).record? q = w.record? q :=
  nth_modNth_ne f h

theorem signal?_modifyRec (w : World) (p : RecPtr) (f : ConnectionData → ConnectionData)
    (s : SigPtr) : (w.modifyRec p f).signal? s = w.signal? s := rfl

theorem signals_mapRecs (w : World) (ps : List RecPtr) (f : ConnectionData → ConnectionData) :
    (mapRecs w ps f).signals = w.signals := by
  induction ps generalizing w with
  | nil => rfl
  | cons p rest ih => simpa [mapRecs] using ih (w.modifyRec p f)

theorem signal?_mapRecs (w : World) (ps : List RecPtr) (f : ConnectionData → ConnectionData)
    (s : SigPtr) : (mapRecs w ps f).signal? s = w.signal? s := by
  simp [World.signal?, signals_mapRecs]

theorem counter_mapRecs (w : World) (ps : List RecPtr) (f : ConnectionData → ConnectionData) :
    (mapRecs w ps f).counter = w.counter := by
  induction ps generalizing w with
  | nil => rfl
  | cons p rest ih => simpa [mapRecs] using ih (w.modifyRec p f)

theorem length_records_mapRecs (w : World) (ps : List RecPtr)
    (f : ConnectionData → ConnectionData) :
    (mapRecs w ps f).records.length = w.records.length := by
  induction ps generalizing w with
  | nil => rfl
  | cons p rest ih =>
    simpa [mapRecs, World.modifyRec, length_modNth] using ih (w.modifyRec p f)

theorem record?_mapRecs (w : World) (ps : List RecPtr) (f : ConnectionData → ConnectionData)
    (hf : ∀ r, f (f r) = f r) (q : RecPtr) :
    (mapRecs w ps f).record? q = if q ∈ ps then (w.record? q).map f else w.record? q := by
  induction ps generalizing w with
  | nil => simp [mapRecs]
  | cons p rest ih =>
    show (mapRecs (w.modifyRec p f) rest f).record? q = _
    rw [ih (w.modifyRec p f)]
    by_cases hqp : q = p
    · subst hqp
      by_cases hq : q ∈ rest
      · simp only [if_pos hq, if_pos (List.mem_cons_self q rest), record?_modifyRec_self]
        cases w.record? q with
        | none => rfl
        | some r => simp [hf]
      · simp only [if_neg hq, if_pos (List.mem_cons_self q rest), record?_modifyRec_self]
    · rw [record?_modifyRec_ne hqp]
      by_cases hq : q ∈ rest
      · rw [if_pos hq, if_pos (List.mem_cons_of_mem p hq)]
      · rw [if_neg hq, if_neg (by simp [hqp, hq])]

theorem signal?_eq_some {w : World} {s : SigPtr} {sig : SigState}
    (h : w.signal? s = some sig) : nth w.signals s = some (some sig) := by
  unfold World.signal? at h
  split at h
  · next heq => exact h ▸ heq
  · exact absurd h (by simp)

theorem signal?_lt_length {w : World} {s : SigPtr} {sig : SigState}
    (h : w.signal? s = some sig) : s < w.signals.length :=
  nth_lt_length (signal?_eq_some h)

theorem WF_of_wfb {w : World} (h : wfb w = true) : w.WF := by
  intro s sig hs
  have hlt : s < w.signals.length := signal?_lt_length hs
  have hall := List.all_eq_true.mp h s (List.mem_range.mpr hlt)
  rw [hs] at hall
  simp only [Bool.and_eq_true, decide_eq_true_eq, List.all_eq_true] at hall
  refine ⟨hall.1, fun p hp => ?_⟩
  have := hall.2 p hp
  cases hrec : w.record? p with
  | none => rw [hrec] at this; exact absurd this (by simp)
  | some r =>
    rw [hrec] at this
    simp only [Bool.and_eq_true, beq_iff_eq] at this
    exact ⟨r, rfl, this.1, this.2⟩

theorem invalidate_idem (r : ConnectionData) :
    ConnectionData.invalidate (ConnectionData.invalidate r) = ConnectionData.invalidate r := rfl

theorem updateSignal_idem (s : SigPtr) (r : ConnectionData) :
    ConnectionData.updateSignal (ConnectionData.updateSignal r s) s =
      ConnectionData.updateSignal r s := rfl

theorem record?_lt_length {w : World} {p : RecPtr} {r : ConnectionData}
    (h : w.record? p = some r) : p < w.records.length :=
  nth_lt_length h

theorem valid_eq_some_true {w : World} {p : RecPtr} (h : Connection.valid w p = some true) :
    ∃ r, w.record? p = some r ∧ r.valid = true := by
  unfold Connection.valid at h
  cases hrec : w.record? p with
  | none => rw [hrec] at h; exact absurd h (by simp)
  | some r => rw [hrec] at h; exact ⟨r, rfl, by simpa using h⟩

/-! Operation characterization lemmas. -/

theorem connectLocked_eq {w : World} {s : SigPtr} {slot : SlotId} {w1 : World} {q : RecPtr}
    (h : Signal.connectLocked w s slot = some (w1, q)) :
    ∃ sig, w.signal? s = some sig ∧ sig.valid = true ∧ q = w.records.length ∧
      w1 = (World.mk (w.records ++ [⟨s, true, slot, w.counter % U32⟩]) w.signals
        ((w.counter + 1) % U64)).setSig s
        (some { sig with connections := sig.connections ++ [w.records.length] }) := by
  unfold Signal.connectLocked at h
  split at h
  · exact absurd h (by simp)
  · next sig heq =>
    split at h
    · next hv =>
      injection h with h2
      exact ⟨sig, heq, hv, (congrArg Prod.snd h2).symm, (congrArg Prod.fst h2).symm⟩
    · exact absurd h (by simp)

theorem disconnectLocked_found {w : World} {s : SigPtr} {sig : SigState} {p : RecPtr}
    (hs : w.signal? s = some sig) (hv : sig.valid = true) (hp : p ∈ sig.connections) :
    Signal.disconnectLocked w s p =
      some ((w.modifyRec p ConnectionData.invalidate).setSig s
        (some { sig with connections := sig.connections.erase p }), true) := by
  unfold Signal.disconnectLocked
  rw [hs]
  simp [hv, hp]

theorem disconnectLocked_notFound {w : World} {s : SigPtr} {sig : SigState} {p : RecPtr}
    (hs : w.signal? s = some sig) (hv : sig.valid = true) (hp : p ∉ sig.connections) :
    Signal.disconnectLocked w s p = some (w, false) := by
  unfold Signal.disconnectLocked
  rw [hs]
  simp [hv, hp]

theorem disconnectLocked_some {w : World} {s : SigPtr} {p : RecPtr} {w2 : World} {b : Bool}
    (h : Signal.disconnectLocked w s p = some (w2, b)) :
    ∃ sig, w.signal? s = some sig ∧ sig.valid = true ∧
      ((b = true ∧ p ∈ sig.connections ∧
        w2 = (w.modifyRec p ConnectionData.invalidate).setSig s
          (some { sig with connections := sig.connections.erase p })) ∨
       (b = false ∧ p ∉ sig.connections ∧ w2 = w)) := by
  unfold Signal.disconnectLocked at h
  split at h
  · exact absurd h (by simp)
  · next sig heq =>
    split at h
    · split at h
      · next hp =>
        injection h with h2
        exact ⟨sig, heq, by assumption,
          Or.inl ⟨(congrArg Prod.snd h2).symm, hp, (congrArg Prod.fst h2).symm⟩⟩
      · next hp =>
        injection h with h2
        exact ⟨sig, heq, by assumption,
          Or.inr ⟨(congrArg Prod.snd h2).symm, hp, (congrArg Prod.fst h2).symm⟩⟩
    · exact absurd h (by simp)

theorem disconnectAllLocked_eq {w : World} {s : SigPtr} {sig : SigState}
    (hs : w.signal? s = some sig) :
    Signal.disconnectAllLocked w s =
      (mapRecs w sig.connections.reverse ConnectionData.invalidate).setSig s
        (some { sig with connections := [] }) := by
  unfold Signal.disconnectAllLocked
  rw [hs]

theorem record?_disconnectAllLocked {w : World} {s : SigPtr} {sig : SigState}
    (hs : w.signal? s = some sig) (q : RecPtr) :
    (Signal.disconnectAllLocked w s).record? q =
      if q ∈ sig.connections then (w.record? q).map ConnectionData.invalidate
      else w.record? q := by
  rw [disconnectAllLocked_eq hs, record?_setSig,
    record?_mapRecs _ _ _ invalidate_idem]
  simp [List.mem_reverse]

theorem signal?_disconnectAllLocked_self {w : World} {s : SigPtr} {sig : SigState}
    (hs : w.signal? s = some sig) :
    (Signal.disconnectAllLocked w s).signal? s = some { sig with connections := [] } := by
  rw [disconnectAllLocked_eq hs]
  exact signal?_setSig_self
    (by simpa [signals_mapRecs] using signal?_lt_length hs) _

theorem signal?_disconnectAllLocked_ne {w : World} {s t : SigPtr} (h : t ≠ s) :
    (Signal.disconnectAllLocked w s).signal? t = w.signal? t := by
  unfold Signal.disconnectAllLocked
  split
  · rfl
  · rw [signal?_setSig_ne h, signal?_mapRecs]

theorem signals_length_disconnectAllLocked (w : World) (s : SigPtr) :
    (Signal.disconnectAllLocked w s).signals.length = w.signals.length := by
  unfold Signal.disconnectAllLocked
  split
  · rfl
  · rw [signals_length_setSig, signals_mapRecs]

theorem record?_destroy {w : World} {s : SigPtr} {sig : SigState}
    (hs : w.signal? s = some sig) (q : RecPtr) :
    (Signal.destroy w s).record? q =
      if q ∈ sig.connections then (w.record? q).map ConnectionData.invalidate
      else w.record? q := by
  unfold Signal.destroy
  rw [record?_setSig, record?_disconnectAllLocked hs]

theorem signal?_destroy_self {w : World} {s : SigPtr} {sig : SigState}
    (hs : w.signal? s = some sig) :
    (Signal.destroy w s).signal? s = none := by
  unfold Signal.destroy
  exact signal?_setSig_self
    (by simpa [signals_length_disconnectAllLocked] using signal?_lt_length hs) none

theorem signal?_destroy_ne {w : World} {s t : SigPtr} (h : t ≠ s) :
    (Signal.destroy w s).signal? t = w.signal? t := by
  unfold Signal.destroy
  rw [signal?_setSig_ne h, signal?_disconnectAllLocked_ne h]

theorem moveBody_eq {w : World} {dst src : SigPtr} {sigd sigs : SigState}
    (hdst : w.signal? dst = some sigd) (hsrc : w.signal? src = some sigs)
    (hne : dst ≠ src) :
    Signal.moveBody w dst src =
      mapRecs (((Signal.disconnectAllLocked w dst).setSig dst
          (some ⟨sigs.connections, true⟩)).setSig src (some ⟨[], false⟩))
        sigs.connections.reverse (fun r => ConnectionData.updateSignal r dst) := by
  have h1 : (Signal.disconnectAllLocked w dst).signal? src = some sigs := by
    rw [signal?_disconnectAllLocked_ne (Ne.symm hne)]
    exact hsrc
  have h2 : (Signal.disconnectAllLocked w dst).signal? dst =
      some { sigd with connections := [] } :=
    signal?_disconnectAllLocked_self hdst
  unfold Signal.moveBody
  rw [h1, h2]

theorem record?_moveBody {w : World} {dst src : SigPtr} {sigd sigs : SigState}
    (hdst : w.signal? dst = some sigd) (hsrc : w.signal? src = some sigs)
    (hne : dst ≠ src) (q : RecPtr) :
    (Signal.moveBody w dst src).record? q =
      if q ∈ sigs.connections then
        (if q ∈ sigd.connections then (w.record? q).map ConnectionData.invalidate
          else w.record? q).map (fun r => ConnectionData.updateSignal r dst)
      else if q ∈ sigd.connections then (w.record? q).map ConnectionData.invalidate
      else w.record? q := by
  rw [moveBody_eq hdst hsrc hne, record?_mapRecs _ _ _ (fun r => updateSignal_idem dst r) q,
    record?_setSig, record?_setSig, record?_disconnectAllLocked hdst]
  by_cases hqs : q ∈ sigs.connections
  · rw [if_pos (List.mem_reverse.mpr hqs), if_pos hqs]
  · rw [if_neg (fun hh => hqs (List.mem_reverse.mp hh)), if_neg hqs]

theorem moveBody_spec {w : World} {dst src : SigPtr} {sigd sigs : SigState}
    (hdst : w.signal? dst = some sigd) (hsrc : w.signal? src = some sigs)
    (hne : dst ≠ src)
    (hdisj : ∀ p ∈ sigs.connections, p ∉ sigd.connections) :
    (Signal.moveBody w dst src).signal? dst = some ⟨sigs.connections, true⟩ ∧
    (Signal.moveBody w dst src).signal? src = some ⟨[], false⟩ ∧
    (∀ t, t ≠ dst → t ≠ src → (Signal.moveBody w dst src).signal? t = w.signal? t) ∧
    (∀ q, (Signal.moveBody w dst src).record? q =
      if q ∈ sigs.connections then
        (w.record? q).map (fun r => ConnectionData.updateSignal r dst)
      else if q ∈ sigd.connections then (w.record? q).map ConnectionData.invalidate
      else w.record? q) := by
  have hlen : dst < (Signal.disconnectAllLocked w dst).signals.length := by
    simpa [signals_length_disconnectAllLocked] using signal?_lt_length hdst
  have hlen2 : src <
      ((Signal.disconnectAllLocked w dst).setSig dst
        (some ⟨sigs.connections, true⟩)).signals.length := by
    simpa [signals_length_setSig, signals_length_disconnectAllLocked] using
      signal?_lt_length hsrc
  have hbody := moveBody_eq hdst hsrc hne
  refine ⟨?_, ?_, ?_, ?_⟩
  · rw [hbody, signal?_mapRecs, signal?_setSig_ne hne, signal?_setSig_self hlen]
  · rw [hbody, signal?_mapRecs, signal?_setSig_self hlen2]
  · intro t htd hts
    rw [hbody, signal?_mapRecs, signal?_setSig_ne hts, signal?_setSig_ne htd,
      signal?_disconnectAllLocked_ne htd]
  · intro q
    rw [record?_moveBody hdst hsrc hne q]
    by_cases hqs : q ∈ sigs.connections
    · rw [if_pos hqs, if_pos hqs, if_neg (hdisj q hqs)]
    · rw [if_neg hqs, if_neg hqs]

theorem signal?_extend_self (w : World) :
    ({ w with signals := w.signals ++ [some ⟨[], true⟩] } : World).signal?
      w.signals.length = some ⟨[], true⟩ := by
  simp [World.signal?, World.setSig, nth_append_length]

theorem signal?_extend_lt {w : World} {t : SigPtr} (h : t < w.signals.length) :
    ({ w with signals := w.signals ++ [some ⟨[], true⟩] } : World).signal? t =
      w.signal? t := by
  simp [World.signal?, nth_append_left h]

theorem signal?_extend_gt {w : World} {t : SigPtr} (h : w.signals.length < t) :
    ({ w with signals := w.signals ++ [some ⟨[], true⟩] } : World).signal? t = none := by
  have : nth (w.signals ++ [some (⟨[], true⟩ : SigState)]) t = none := by
    apply nth_ge_length
    simpa using h
  simp [World.signal?, this]

theorem valid_disconnectLocked {w : World} {s : SigPtr} {q : RecPtr} {w2 : World} {b : Bool}
    {p : RecPtr} {r : ConnectionData}
    (hc : Signal.disconnectLocked w s q = some (w2, b))
    (hr : w.record? p = some r) :
    ∃ sig, w.signal? s = some sig ∧
      Connection.valid w2 p =
        some (r.valid && !(q == p && decide (p ∈ sig.connections))) := by
  obtain ⟨sig, hsig, hv, hcase⟩ := disconnectLocked_some hc
  refine ⟨sig, hsig, ?_⟩
  rcases hcase with ⟨hb, hqmem, hw2⟩ | ⟨hb, hqmem, hw2⟩
  · by_cases hpq : p = q
    · subst hpq
      have hrec : w2.record? p = some (ConnectionData.invalidate r) := by
        rw [hw2, record?_setSig, record?_modifyRec_self, hr]
        rfl
      simp [Connection.valid, hrec, hqmem, ConnectionData.invalidate]
    · have hrec : w2.record? p = some r := by
        rw [hw2, record?_setSig, record?_modifyRec_ne hpq]
        exact hr
      have hqp : (q == p) = false := beq_eq_false_iff_ne.mpr (fun hh => hpq hh.symm)
      simp [Connection.valid, hrec, hqp]
  · subst hw2
    by_cases hpq : p = q
    · subst hpq
      simp [Connection.valid, hr, hqmem]
    · have hqp : (q == p) = false := beq_eq_false_iff_ne.mpr (fun hh => hpq hh.symm)
      simp [Connection.valid, hr, hqp]

/-- The validity of any one record across any one successful step: it stays
what it was unless the step disconnects it, and then it is false. -/
theorem valid_step {w w' : World} {op : Op} {p : RecPtr} {r : ConnectionData}
    (hstep : step w op = some w') (hr : w.record? p = some r) :
    Connection.valid w' p = some (r.valid && !(hits w op p)) := by
  cases op with
  | connect s slot =>
    simp only [step] at hstep
    cases hc : Signal.connect w s slot with
    | none => rw [hc] at hstep; exact absurd hstep (by simp)
    | some pr =>
      obtain ⟨w1, q⟩ := pr
      rw [hc] at hstep
      simp only [Option.map_some'] at hstep
      injection hstep with hw'
      subst hw'
      unfold Signal.connect at hc
      obtain ⟨sig, hsig, hv, hq, hw1⟩ := connectLocked_eq hc
      have hrec : w1.record? p = some r := by
        rw [hw1, record?_setSig]
        show nth (w.records ++ [(⟨s, true, slot, w.counter % U32⟩ : ConnectionData)]) p =
          some r
        rw [nth_append_left (record?_lt_length hr)]
        exact hr
      simp [Connection.valid, hrec, hits]
  | sigDisconnect s q =>
    simp only [step] at hstep
    cases hc : Signal.disconnect w s q with
    | none => rw [hc] at hstep; exact absurd hstep (by simp)
    | some pr =>
      obtain ⟨w2, b⟩ := pr
      rw [hc] at hstep
      simp only [Option.map_some'] at hstep
      injection hstep with hw'
      subst hw'
      unfold Signal.disconnect at hc
      obtain ⟨sig, hsig, hval⟩ := valid_disconnectLocked hc hr
      rw [hval]
      simp [hits, hsig]
  | connDisconnect q =>
    simp only [step] at hstep
    cases hc : Connection.disconnect w q with
    | none => rw [hc] at hstep; exact absurd hstep (by simp)
    | some pr =>
      obtain ⟨w2, b⟩ := pr
      rw [hc] at hstep
      simp only [Option.map_some'] at hstep
      injection hstep with hw'
      subst hw'
      unfold Connection.disconnect at hc
      split at hc
      · exact absurd hc (by simp)
      · next rq hrq =>
        split at hc
        · exact absurd hc (by simp)
        · next sig0 hsq =>
          unfold Signal.disconnect at hc
          obtain ⟨sig, hsig, hval⟩ := valid_disconnectLocked hc hr
          rw [hval]
          simp [hits, hrq, hsig]
  | disconnectAll s =>
    simp only [step] at hstep
    cases hsig : w.signal? s with
    | none => rw [hsig] at hstep; exact absurd hstep (by simp)
    | some sig =>
      rw [hsig] at hstep
      injection hstep with hw'
      subst hw'
      have hrec := record?_disconnectAllLocked hsig p
      by_cases hp : p ∈ sig.connections
      · simp [Connection.valid, hrec, hp, hits, hsig, hr, ConnectionData.invalidate]
      · simp [Connection.valid, hrec, hp, hits, hsig, hr]
  | destroy s =>
    simp only [step] at hstep
    cases hsig : w.signal? s with
    | none => rw [hsig] at hstep; exact absurd hstep (by simp)
    | some sig =>
      rw [hsig] at hstep
      injection hstep with hw'
      subst hw'
      have hrec := record?_destroy hsig p
      by_cases hp : p ∈ sig.connections
      · simp [Connection.valid, hrec, hp, hits, hsig, hr, ConnectionData.invalidate]
      · simp [Connection.valid, hrec, hp, hits, hsig, hr]
  | moveAssign dst src =>
    simp only [step] at hstep
    split at hstep
    · exact absurd hstep (by simp)
    · next hne =>
      split at hstep
      · next sigd sigs hd hs2 =>
        injection hstep with hw'
        subst hw'
        have hrec := record?_moveBody hd hs2 hne p
        unfold Signal.moveAssign
        by_cases hps : p ∈ sigs.connections <;> by_cases hpd : p ∈ sigd.connections <;>
          simp [Connection.valid, hrec, hps, hpd, hits, hd, hr,
            ConnectionData.invalidate, ConnectionData.updateSignal]
      · exact absurd hstep (by simp)
  | moveConstruct src =>
    simp only [step] at hstep
    cases hs2 : w.signal? src with
    | none => rw [hs2] at hstep; exact absurd hstep (by simp)
    | some sigs =>
      rw [hs2] at hstep
      injection hstep with hw'
      subst hw'
      have hlt := signal?_lt_length hs2
      have hdext := signal?_extend_self w
      have hsext : ({ w with signals := w.signals ++ [some ⟨[], true⟩] } : World).signal?
          src = some sigs := by
        rw [signal?_extend_lt hlt]
        exact hs2
      have hne : w.signals.length ≠ src := Nat.ne_of_gt hlt
      have hrec := record?_moveBody hdext hsext hne p
      have hrext : ({ w with signals := w.signals ++ [some ⟨[], true⟩] } : World).record?
          p = some r := hr
      unfold Signal.moveConstruct
      by_cases hps : p ∈ sigs.connections <;>
        simp [Connection.valid, hrec, hrext, hps, hits, hr, ConnectionData.updateSignal]
  | emit s =>
    simp only [step] at hstep
    split at hstep
    · split at hstep
      · injection hstep with hw'
        subst hw'
        simp [Connection.valid, hr, hits]
      · exact absurd hstep (by simp)
    · exact absurd hstep (by simp)

/-- The validity of one record across a successful trace: it ends true iff it
started true and no operation of the trace disconnected it. -/
theorem valid_run {w w' : World} {ops : List Op} {p : RecPtr} {r : ConnectionData}
    (hrun : run w ops = some w') (hr : w.record? p = some r) :
    ∃ b, hitsAlong w p ops = some b ∧ Connection.valid w' p = some (r.valid && !b) := by
  induction ops generalizing w r with
  | nil =>
    unfold run at hrun
    injection hrun with hw'
    subst hw'
    exact ⟨false, rfl, by simp [Connection.valid, hr]⟩
  | cons op ops ih =>
    unfold run at hrun
    split at hrun
    · next w1 hstep =>
      have hv1 := valid_step hstep hr
      obtain ⟨r1, hr1, hval1⟩ : ∃ r1, w1.record? p = some r1 ∧
          r1.valid = (r.valid && !(hits w op p)) := by
        unfold Connection.valid at hv1
        cases hrec : w1.record? p with
        | none => rw [hrec] at hv1; exact absurd hv1 (by simp)
        | some r1 => rw [hrec] at hv1; exact ⟨r1, rfl, by simpa using hv1⟩
      obtain ⟨b1, hb1, hval⟩ := ih hrun hr1
      refine ⟨hits w op p || b1, ?_, ?_⟩
      · simp [hitsAlong, hstep, hb1]
      · rw [hval, hval1, Bool.not_or, ← Bool.and_assoc]
    · exact absurd hrun (by simp)

/-! Preservation of the invariant by every operation. -/

/-- A record listed by one live Signal is not listed by a different one (its
back-pointer identifies its owner). -/
theorem WF_not_mem_other {w : World} {s t : SigPtr} {sig sigt : SigState} {p : RecPtr}
    (hwf : w.WF) (hsig : w.signal? s = some sig) (hst : w.signal? t = some sigt)
    (hts : t ≠ s) (hp : p ∈ sigt.connections) : p ∉ sig.connections := by
  intro hmem2
  obtain ⟨_, hmem3⟩ := hwf s sig hsig
  obtain ⟨r2, hrec2, _, hsg2⟩ := hmem3 p hmem2
  obtain ⟨_, hmemt⟩ := hwf t sigt hst
  obtain ⟨r, hrec, _, hsg⟩ := hmemt p hp
  rw [hrec] at hrec2
  injection hrec2 with h3
  have h4 : r.signal = s := by rw [h3, hsg2]
  exact hts (by rw [← hsg, h4])

theorem WF_live {w : World} {s : SigPtr} {sig : SigState} (hwf : w.WF)
    (hs : w.signal? s = some sig) :
    ∀ p ∈ sig.connections, Connection.valid w p = some true := by
  intro p hp
  obtain ⟨r, hr, hv, _⟩ := (hwf s sig hs).2 p hp
  simp [Connection.valid, hr, hv]

theorem WF_connectLocked {w : World} {s : SigPtr} {slot : SlotId} {w1 : World} {q : RecPtr}
    (hwf : w.WF) (h : Signal.connectLocked w s slot = some (w1, q)) : w1.WF := by
  obtain ⟨sig, hsig, hv, hq, hw1⟩ := connectLocked_eq h
  subst hw1
  intro t sigt hst
  obtain ⟨hnd, hmem⟩ := hwf s sig hsig
  by_cases hts : t = s
  · subst hts
    have hlen : t < (World.mk (w.records ++ [⟨t, true, slot, w.counter % U32⟩]) w.signals
        ((w.counter + 1) % U64)).signals.length := signal?_lt_length hsig
    rw [signal?_setSig_self hlen] at hst
    injection hst with h1
    subst h1
    constructor
    · rw [List.nodup_append]
      refine ⟨hnd, List.nodup_singleton _, fun a ha hb => ?_⟩
      obtain ⟨r, hrec, _, _⟩ := hmem a ha
      have hlt2 := record?_lt_length hrec
      simp only [List.mem_singleton] at hb
      exact absurd hb (Nat.ne_of_lt hlt2)
    · intro p hp
      rcases List.mem_append.mp hp with hpl | hpr
      · obtain ⟨r, hrec, hv2, hsg⟩ := hmem p hpl
        refine ⟨r, ?_, hv2, hsg⟩
        show nth (w.records ++ [(⟨t, true, slot, w.counter % U32⟩ : ConnectionData)]) p =
          some r
        rw [nth_append_left (record?_lt_length hrec)]
        exact hrec
      · simp only [List.mem_singleton] at hpr
        subst hpr
        refine ⟨⟨t, true, slot, w.counter % U32⟩, ?_, rfl, rfl⟩
        exact nth_append_length w.records _
  · rw [signal?_setSig_ne hts] at hst
    obtain ⟨hnd2, hmem2⟩ := hwf t sigt hst
    refine ⟨hnd2, fun p hp => ?_⟩
    obtain ⟨r, hrec, hv2, hsg⟩ := hmem2 p hp
    refine ⟨r, ?_, hv2, hsg⟩
    show nth (w.records ++ [(⟨s, true, slot, w.counter % U32⟩ : ConnectionData)]) p = some r
    rw [nth_append_left (record?_lt_length hrec)]
    exact hrec

theorem WF_disconnectLocked {w : World} {s : SigPtr} {q : RecPtr} {w2 : World} {b : Bool}
    (hwf : w.WF) (h : Signal.disconnectLocked w s q = some (w2, b)) : w2.WF := by
  obtain ⟨sig, hsig, hv, hcase⟩ := disconnectLocked_some h
  rcases hcase with ⟨hb, hqmem, hw2⟩ | ⟨hb, hqmem, hw2⟩
  · subst hw2
    obtain ⟨hnd, hmem⟩ := hwf s sig hsig
    intro t sigt hst
    by_cases hts : t = s
    · subst hts
      have hlen : t < (w.modifyRec q ConnectionData.invalidate).signals.length :=
        signal?_lt_length hsig
      rw [signal?_setSig_self hlen] at hst
      injection hst with h1
      subst h1
      refine ⟨hnd.erase q, fun p hp => ?_⟩
      have hpq : p ≠ q ∧ p ∈ sig.connections := (hnd.mem_erase_iff).mp hp
      obtain ⟨r, hrec, hv2, hsg⟩ := hmem p hpq.2
      refine ⟨r, ?_, hv2, hsg⟩
      rw [record?_setSig, record?_modifyRec_ne hpq.1]
      exact hrec
    · rw [signal?_setSig_ne hts] at hst
      obtain ⟨hnd2, hmem2⟩ := hwf t sigt hst
      refine ⟨hnd2, fun p hp => ?_⟩
      obtain ⟨r, hrec, hv2, hsg⟩ := hmem2 p hp
      have hpq : p ≠ q := by
        intro hh
        subst hh
        exact WF_not_mem_other hwf hsig hst hts hp hqmem
      refine ⟨r, ?_, hv2, hsg⟩
      rw [record?_setSig, record?_modifyRec_ne hpq]
      exact hrec
  · subst hw2
    exact hwf

theorem WF_disconnectAllLocked {w : World} {s : SigPtr} (hwf : w.WF) :
    (Signal.disconnectAllLocked w s).WF := by
  cases hsig : w.signal? s with
  | none =>
    unfold Signal.disconnectAllLocked
    rw [hsig]
    exact hwf
  | some sig =>
    intro t sigt hst
    by_cases hts : t = s
    · subst hts
      rw [signal?_disconnectAllLocked_self hsig] at hst
      injection hst with h1
      subst h1
      exact ⟨List.nodup_nil, fun p hp => absurd hp (List.not_mem_nil p)⟩
    · rw [signal?_disconnectAllLocked_ne hts] at hst
      obtain ⟨hnd, hmem⟩ := hwf t sigt hst
      refine ⟨hnd, fun p hp => ?_⟩
      obtain ⟨r, hrec, hv2, hsg⟩ := hmem p hp
      have hpn : p ∉ sig.connections := WF_not_mem_other hwf hsig hst hts hp
      refine ⟨r, ?_, hv2, hsg⟩
      rw [record?_disconnectAllLocked hsig, if_neg hpn]
      exact hrec

theorem WF_destroy {w : World} {s : SigPtr} {sig : SigState} (hwf : w.WF)
    (hsig : w.signal? s = some sig) : (Signal.destroy w s).WF := by
  intro t sigt hst
  by_cases hts : t = s
  · subst hts
    rw [signal?_destroy_self hsig] at hst
    exact absurd hst (by simp)
  · rw [signal?_destroy_ne hts] at hst
    obtain ⟨hnd, hmem⟩ := hwf t sigt hst
    refine ⟨hnd, fun p hp => ?_⟩
    obtain ⟨r, hrec, hv2, hsg⟩ := hmem p hp
    have hpn : p ∉ sig.connections := WF_not_mem_other hwf hsig hst hts hp
    refine ⟨r, ?_, hv2, hsg⟩
    rw [record?_destroy hsig, if_neg hpn]
    exact hrec

theorem WF_moveBody {w : World} {dst src : SigPtr} {sigd sigs : SigState}
    (hwf : w.WF) (hdst : w.signal? dst = some sigd) (hsrc : w.signal? src = some sigs)
    (hne : dst ≠ src) : (Signal.moveBody w dst src).WF := by
  have hdisj : ∀ p ∈ sigs.connections, p ∉ sigd.connections := fun p hp =>
    WF_not_mem_other hwf hdst hsrc (Ne.symm hne) hp
  obtain ⟨hsd, hss, hsother, hrec⟩ := moveBody_spec hdst hsrc hne hdisj
  intro t sigt hst
  by_cases htd : t = dst
  · subst htd
    rw [hsd] at hst
    injection hst with h1
    subst h1
    obtain ⟨hnd, hmem⟩ := hwf src sigs hsrc
    refine ⟨hnd, fun p hp => ?_⟩
    obtain ⟨r, hr2, hv2, hs2⟩ := hmem p hp
    refine ⟨ConnectionData.updateSignal r t, ?_, hv2, rfl⟩
    rw [hrec p, if_pos hp, hr2]
    rfl
  · by_cases hts : t = src
    · subst hts
      rw [hss] at hst
      injection hst with h1
      subst h1
      exact ⟨List.nodup_nil, fun p hp => absurd hp (List.not_mem_nil p)⟩
    · rw [hsother t htd hts] at hst
      obtain ⟨hnd, hmem⟩ := hwf t sigt hst
      refine ⟨hnd, fun p hp => ?_⟩
      obtain ⟨r, hr2, hv2, hs2⟩ := hmem p hp
      have hpd : p ∉ sigd.connections := WF_not_mem_other hwf hdst hst htd hp
      have hps : p ∉ sigs.connections := WF_not_mem_other hwf hsrc hst hts hp
      refine ⟨r, ?_, hv2, hs2⟩
      rw [hrec p, if_neg hps, if_neg hpd]
      exact hr2

theorem WF_extend {w : World} (hwf : w.WF) :
    ({ w with signals := w.signals ++ [some ⟨[], true⟩] } : World).WF := by
  intro t sigt hst
  rcases Nat.lt_trichotomy t w.signals.length with hlt | heq | hgt
  · rw [signal?_extend_lt hlt] at hst
    exact hwf t sigt hst
  · subst heq
    rw [signal?_extend_self w] at hst
    injection hst with h1
    subst h1
    exact ⟨List.nodup_nil, fun p hp => absurd hp (List.not_mem_nil p)⟩
  · rw [signal?_extend_gt hgt] at hst
    exact absurd hst (by simp)

/-- Every successful step preserves the invariant. -/
theorem WF_step {w w' : World} {op : Op} (hwf : w.WF) (hstep : step w op = some w') :
    w'.WF := by
  cases op with
  | connect s slot =>
    simp only [step] at hstep
    cases hc : Signal.connect w s slot with
    | none => rw [hc] at hstep; exact absurd hstep (by simp)
    | some pr =>
      obtain ⟨w1, q⟩ := pr
      rw [hc] at hstep
      simp only [Option.map_some'] at hstep
      injection hstep with hw'
      subst hw'
      unfold Signal.connect at hc
      exact WF_connectLocked hwf hc
  | sigDisconnect s q =>
    simp only [step] at hstep
    cases hc : Signal.disconnect w s q with
    | none => rw [hc] at hstep; exact absurd hstep (by simp)
    | some pr =>
      obtain ⟨w2, b⟩ := pr
      rw [hc] at hstep
      simp only [Option.map_some'] at hstep
      injection hstep with hw'
      subst hw'
      unfold Signal.disconnect at hc
      exact WF_disconnectLocked hwf hc
  | connDisconnect q =>
    simp only [step] at hstep
    cases hc : Connection.disconnect w q with
    | none => rw [hc] at hstep; exact absurd hstep (by simp)
    | some pr =>
      obtain ⟨w2, b⟩ := pr
      rw [hc] at hstep
      simp only [Option.map_some'] at hstep
      injection hstep with hw'
      subst hw'
      unfold Connection.disconnect at hc
      split at hc
      · exact absurd hc (by simp)
      · split at hc
        · exact absurd hc (by simp)
        · unfold Signal.disconnect at hc
          exact WF_disconnectLocked hwf hc
  | disconnectAll s =>
    simp only [step] at hstep
    split at hstep
    · injection hstep with hw'
      subst hw'
      exact WF_disconnectAllLocked hwf
    · exact absurd hstep (by simp)
  | destroy s =>
    simp only [step] at hstep
    split at hstep
    · next sig hsig =>
      injection hstep with hw'
      subst hw'
      exact WF_destroy hwf hsig
    · exact absurd hstep (by simp)
  | moveAssign dst src =>
    simp only [step] at hstep
    split at hstep
    · exact absurd hstep (by simp)
    · next hne =>
      split at hstep
      · next sigd sigs hd hs2 =>
        injection hstep with hw'
        subst hw'
        exact WF_moveBody hwf hd hs2 hne
      · exact absurd hstep (by simp)
  | moveConstruct src =>
    simp only [step] at hstep
    cases hs2 : w.signal? src with
    | none => rw [hs2] at hstep; exact absurd hstep (by simp)
    | some sigs =>
      rw [hs2] at hstep
      injection hstep with hw'
      subst hw'
      have hlt := signal?_lt_length hs2
      have hsext : ({ w with signals := w.signals ++ [some ⟨[], true⟩] } : World).signal?
          src = some sigs := by
        rw [signal?_extend_lt hlt]
        exact hs2
      exact WF_moveBody (WF_extend hwf) (signal?_extend_self w) hsext (Nat.ne_of_gt hlt)
  | emit s =>
    simp only [step] at hstep
    split at hstep
    · split at hstep
      · injection hstep with hw'
        subst hw'
        exact hwf
      · exact absurd hstep (by simp)
    · exact absurd hstep (by simp)

/-! Emission lemmas. -/

theorem callAll_ok {α ε : Type} (w : World) (interp : SlotId → α → Except ε Unit) (a : α)
    (ps : List RecPtr)
    (hlive : ∀ p ∈ ps, Connection.valid w p = some true)
    (hok : ∀ i b, interp i b = Except.ok ()) :
    callAll w interp a ps = (ps.map (fun p => (w.slotOf p, a)), EmitResult.ok) := by
  induction ps with
  | nil => rfl
  | cons p rest ih =>
    obtain ⟨r, hr, hv⟩ := valid_eq_some_true (hlive p (List.mem_cons_self p rest))
    have hrest := ih (fun q hq => hlive q (List.mem_cons_of_mem p hq))
    simp [callAll, hr, hv, hok, hrest, World.slotOf]

theorem emitRun_of_ok {α ε : Type} {w : World} {s : SigPtr} {sig : SigState}
    (interp : SlotId → α → Except ε Unit) (a : α)
    (hs : w.signal? s = some sig) (hv : sig.valid = true)
    (hlive : ∀ p ∈ sig.connections, Connection.valid w p = some true)
    (hok : ∀ i b, interp i b = Except.ok ()) :
    Signal.emitRun w s interp a =
      (w, sig.connections.reverse.map (fun p => (w.slotOf p, a)), EmitResult.ok) := by
  unfold Signal.emitRun
  rw [hs]
  simp only [hv, if_true]
  rw [callAll_ok w interp a _ (fun p hp => hlive p (List.mem_reverse.mp hp)) hok]

theorem callAll_fail {α ε : Type} (w : World) (interp : SlotId → α → Except ε Unit) (a : α)
    (l1 : List RecPtr) (q : RecPtr) (l2 : List RecPtr) (e : ε)
    (hlive1 : ∀ p ∈ l1, Connection.valid w p = some true)
    (hok1 : ∀ p ∈ l1, interp (w.slotOf p) a = Except.ok ())
    (hq : Connection.valid w q = some true)
    (hfail : interp (w.slotOf q) a = Except.error e) :
    callAll w interp a (l1 ++ q :: l2) =
      (l1.map (fun p => (w.slotOf p, a)) ++ [(w.slotOf q, a)], EmitResult.slotFail e) := by
  induction l1 with
  | nil =>
    obtain ⟨r, hr, hv⟩ := valid_eq_some_true hq
    have hslot : w.slotOf q = r.slot := by simp [World.slotOf, hr]
    rw [hslot] at hfail
    simp [callAll, hr, hv, hfail, hslot]
  | cons p rest ih =>
    obtain ⟨r, hr, hv⟩ := valid_eq_some_true (hlive1 p (List.mem_cons_self p rest))
    have hslot : w.slotOf p = r.slot := by simp [World.slotOf, hr]
    have hokp := hok1 p (List.mem_cons_self p rest)
    rw [hslot] at hokp
    have hrest := ih (fun x hx => hlive1 x (List.mem_cons_of_mem p hx))
      (fun x hx => hok1 x (List.mem_cons_of_mem p hx))
    simp [callAll, hr, hv, hokp, hrest, hslot]

theorem emitRun_of_fail {α ε : Type} {w : World} {s : SigPtr} {sig : SigState}
    {interp : SlotId → α → Except ε Unit} {a : α} {l1 : List RecPtr} {q : RecPtr}
    {l2 : List RecPtr} {e : ε}
    (hs : w.signal? s = some sig) (hv : sig.valid = true)
    (hrev : sig.connections.reverse = l1 ++ q :: l2)
    (hlive1 : ∀ p ∈ l1, Connection.valid w p = some true)
    (hok1 : ∀ p ∈ l1, interp (w.slotOf p) a = Except.ok ())
    (hq : Connection.valid w q = some true)
    (hfail : interp (w.slotOf q) a = Except.error e) :
    Signal.emitRun w s interp a =
      (w, l1.map (fun p => (w.slotOf p, a)) ++ [(w.slotOf q, a)],
        EmitResult.slotFail e) := by
  unfold Signal.emitRun
  rw [hs]
  simp only [hv, if_true]
  rw [hrev, callAll_fail w interp a l1 q l2 e hlive1 hok1 hq hfail]

theorem emitRun_empty {α ε : Type} {w : World} {s : SigPtr} {v : Bool}
    (interp : SlotId → α → Except ε Unit) (a : α)
    (hs : w.signal? s = some ⟨[], v⟩) :
    (Signal.emitRun w s interp a).2.1 = [] := by
  unfold Signal.emitRun
  rw [hs]
  cases v <;> simp [callAll]

/-! The id counter through iterated connects. -/

theorem connectN_spec (n : Nat) :
    (connectN n).counter = n % U64 ∧
    (connectN n).records.length = n ∧
    (connectN n).signal? 0 = some ⟨List.range n, true⟩ ∧
    ∀ k, k < n → (connectN n).record? k = some ⟨0, true, 0, k % U32⟩ := by
  induction n with
  | zero => exact ⟨rfl, rfl, rfl, fun k hk => absurd hk (Nat.not_lt_zero k)⟩
  | succ n ih =>
    obtain ⟨hc, hlen, hsig, hrec⟩ := ih
    have hstep : connectN (n + 1) =
        (World.mk ((connectN n).records ++ [⟨0, true, 0, (connectN n).counter % U32⟩])
          (connectN n).signals (((connectN n).counter + 1) % U64)).setSig 0
          (some ⟨List.range n ++ [(connectN n).records.length], true⟩) := by
      show (match Signal.connect (connectN n) 0 0 with
        | some (w1, _) => w1
        | none => connectN n) = _
      unfold Signal.connect Signal.connectLocked
      rw [hsig]
      rfl
    have h1lt : 1 % U64 = 1 := Nat.mod_eq_of_lt (by norm_num [U64])
    refine ⟨?_, ?_, ?_, ?_⟩
    · rw [hstep, counter_setSig]
      show ((connectN n).counter + 1) % U64 = (n + 1) % U64
      rw [hc]
      conv_rhs => rw [Nat.add_mod, h1lt]
    · rw [hstep]
      show ((connectN n).records ++ [_]).length = n + 1
      simp [hlen]
    · rw [hstep]
      have h0 : (0 : Nat) <
          (World.mk ((connectN n).records ++ [⟨0, true, 0, (connectN n).counter % U32⟩])
            (connectN n).signals (((connectN n).counter + 1) % U64)).signals.length :=
        signal?_lt_length hsig
      rw [signal?_setSig_self h0, hlen, ← List.range_succ]
    · intro k hk
      rw [hstep, record?_setSig]
      rcases Nat.lt_or_ge k n with hkn | hkn
      · show nth ((connectN n).records ++ [_]) k = _
        rw [nth_append_left (by rw [hlen]; exact hkn)]
        exact hrec k hkn
      · have hkeq : k = n := Nat.le_antisymm (Nat.lt_succ_iff.mp hk) hkn
        subst hkeq
        show nth ((connectN k).records ++ [⟨0, true, 0, (connectN k).counter % U32⟩]) k =
          some ⟨0, true, 0, k % U32⟩
        have hlast := nth_append_length (connectN k).records
          (⟨0, true, 0, (connectN k).counter % U32⟩ : ConnectionData)
        rw [hlen] at hlast
        have hdvd : U32 ∣ U64 := by
          unfold U32 U64
          exact Nat.pow_dvd_pow 2 (by norm_num)
        rw [hlast, hc, Nat.mod_mod_of_dvd k hdvd]

/-! Claim theorems. -/

/-- C1: the claim states that a slot calling disconnect() on its own
Connection during an emission does not deadlock, because the Signal's
collection lock is not held while slots execute.  The code contradicts this:
Signal::operator() holds _stateMutex (a plain non-recursive std::mutex)
across the whole forEachConnection loop, so the re-entrant Signal::disconnect
issued from inside the slot locks the already-held mutex and deadlocks (and
disconnectLocked's invalidate would additionally re-lock the record's own
_stateMutex, already held by ConnectionData::call).  An inert slot emits
fine; a self-disconnecting slot deadlocks. -/
theorem c1_self_disconnect_deadlocks :
    Signal.emitLocks 0 [(0, SlotAct.inert)] = some () ∧
    Signal.emitLocks 0 [(0, SlotAct.selfDisconnect)] = none := by
  exact ⟨by decide, by decide⟩

/-- C2: emitting on a Signal with N live connections performs exactly N slot
calls, one per connection, in reverse connection order (last connected
first), each receiving exactly the emitted argument. -/
theorem c2_emit_exactly_n_reverse_order {α ε : Type} (w : World) (s : SigPtr)
    (sig : SigState) (interp : SlotId → α → Except ε Unit) (a : α)
    (hs : w.signal? s = some sig) (hv : sig.valid = true) (hwf : w.WF)
    (hok : ∀ i b, interp i b = Except.ok ()) :
    Signal.emitRun w s interp a =
      (w, sig.connections.reverse.map (fun p => (w.slotOf p, a)), EmitResult.ok) ∧
    (Signal.emitRun w s interp a).2.1.length = sig.connections.length := by
  have h := emitRun_of_ok interp a hs hv (WF_live hwf hs) hok
  exact ⟨h, by rw [h]; simp⟩

/-- Witness for C2: a signal with slots 7 then 8 connected emits exactly the
two calls, slot 8 first, both with the emitted argument 5. -/
theorem c2_emit_exactly_n_reverse_order_witness :
    Signal.emitRun demoWorld2 0 (fun _ _ => (Except.ok () : Except Unit Unit)) (5 : Nat) =
      (demoWorld2, [(8, 5), (7, 5)], EmitResult.ok) := by
  have h := (c2_emit_exactly_n_reverse_order demoWorld2 0 ⟨[0, 1], true⟩
    (fun _ _ => (Except.ok () : Except Unit Unit)) 5 (by decide) rfl
    (WF_of_wfb (by decide)) (fun _ _ => rfl)).1
  rw [h]
  decide

/-- C3: after the owning Signal is destroyed, valid() on an outstanding
Connection does report false, but disconnect() is not the claimed safe
false-returning call: the destructor never severs the records' _signal
back-pointers, so ConnectionData::disconnect follows the dangling pointer
and dereferences the destroyed Signal, which is undefined behavior (none in
the model). -/
theorem c3_disconnect_after_destroy_hits_dangling_owner :
    Connection.valid (Signal.destroy demoWorld1 0) 0 = some false ∧
    Connection.disconnect (Signal.destroy demoWorld1 0) 0 = none := by
  exact ⟨by decide, by decide⟩

/-- C4: Signal::disconnect returns true exactly when the connection's record
is currently in the collection, in which case it invalidates the record and
removes it (so a second disconnect of the same Connection returns false);
when the record is absent it returns false and the world is untouched. -/
theorem c4_disconnect_iff_present (w : World) (s : SigPtr) (sig : SigState) (p : RecPtr)
    (hs : w.signal? s = some sig) (hv : sig.valid = true) (hnd : sig.connections.Nodup)
    (hrec : ∀ q ∈ sig.connections, (w.record? q).isSome = true) :
    (p ∉ sig.connections → Signal.disconnect w s p = some (w, false)) ∧
    (p ∈ sig.connections → ∃ w2, Signal.disconnect w s p = some (w2, true) ∧
      Connection.valid w2 p = some false ∧
      w2.signal? s = some { sig with connections := sig.connections.erase p } ∧
      p ∉ sig.connections.erase p ∧
      Signal.disconnect w2 s p = some (w2, false)) := by
  constructor
  · intro hp
    unfold Signal.disconnect
    exact disconnectLocked_notFound hs hv hp
  · intro hp
    have hfound := disconnectLocked_found hs hv hp
    obtain ⟨r, hr⟩ := Option.isSome_iff_exists.mp (hrec p hp)
    have hrec2 : ((w.modifyRec p ConnectionData.invalidate).setSig s
        (some { sig with connections := sig.connections.erase p })).record? p =
        some (ConnectionData.invalidate r) := by
      rw [record?_setSig, record?_modifyRec_self, hr]
      rfl
    have hsig2 : ((w.modifyRec p ConnectionData.invalidate).setSig s
        (some { sig with connections := sig.connections.erase p })).signal? s =
        some { sig with connections := sig.connections.erase p } :=
      signal?_setSig_self
        (signal?_lt_length hs : s < (w.modifyRec p ConnectionData.invalidate).signals.length)
        _
    have hne : p ∉ sig.connections.erase p := fun hmem =>
      ((hnd.mem_erase_iff).mp hmem).1 rfl
    refine ⟨_, hfound, ?_, hsig2, hne, ?_⟩
    · simp [Connection.valid, hrec2, ConnectionData.invalidate]
    · unfold Signal.disconnect
      exact disconnectLocked_notFound hsig2 hv hne

/-- Witness for C4 on the two-connection demo world: disconnecting record 0
succeeds once and fails the second time; record 2 is absent so disconnecting
it is a no-op returning false. -/
theorem c4_disconnect_iff_present_witness :
    ((0 : RecPtr) ∉ ([0, 1] : List RecPtr) →
      Signal.disconnect demoWorld2 0 0 = some (demoWorld2, false)) ∧
    ((0 : RecPtr) ∈ ([0, 1] : List RecPtr) →
      ∃ w2, Signal.disconnect demoWorld2 0 0 = some (w2, true) ∧
        Connection.valid w2 0 = some false ∧
        w2.signal? 0 = some { connections := ([0, 1] : List RecPtr).erase 0, valid := true } ∧
        (0 : RecPtr) ∉ ([0, 1] : List RecPtr).erase 0 ∧
        Signal.disconnect w2 0 0 = some (w2, false)) :=
  c4_disconnect_iff_present demoWorld2 0 ⟨[0, 1], true⟩ 0 (by decide) rfl (by decide)
    (by decide)

/-- C5: along any successful trace of the public operations, a Connection
reports valid exactly while its record has not been invalidated by any
disconnect path of the trace (Connection::disconnect, Signal::disconnect,
disconnect-all, destruction, or a move overwriting the record's owner), and
validity is monotonic: a record that starts invalid stays invalid. -/
theorem c5_valid_iff_never_disconnected (w w' : World) (ops : List Op) (p : RecPtr)
    (r : ConnectionData) (hrun : run w ops = some w') (hr : w.record? p = some r) :
    (∃ b, hitsAlong w p ops = some b ∧
      Connection.valid w' p = some (r.valid && !b)) ∧
    (r.valid = false → Connection.valid w' p = some false) := by
  obtain ⟨b, hb, hval⟩ := valid_run hrun hr
  refine ⟨⟨b, hb, hval⟩, fun hf => ?_⟩
  rw [hval, hf]
  simp

/-- Witness for C5: record 0 of the demo world is disconnected by the first
operation of the trace and stays invalid at its end. -/
theorem c5_valid_iff_never_disconnected_witness :
    (∃ b, hitsAlong demoWorld1 0 [Op.sigDisconnect 0 0, Op.connect 0 3] = some b ∧
      Connection.valid ⟨[⟨0, false, 7, 0⟩, ⟨0, true, 3, 1⟩], [some ⟨[1], true⟩], 2⟩ 0 =
        some (true && !b)) ∧
    ((true : Bool) = false →
      Connection.valid ⟨[⟨0, false, 7, 0⟩, ⟨0, true, 3, 1⟩], [some ⟨[1], true⟩], 2⟩ 0 =
        some false) :=
  c5_valid_iff_never_disconnected demoWorld1 _ [Op.sigDisconnect 0 0, Op.connect 0 3] 0
    ⟨0, true, 7, 0⟩ (by decide) (by decide)

/-- C6: every public operation (connect, disconnect through either path,
disconnect-all, destruction, both moves, emission) preserves the Signal
invariant: every record reachable from a live Signal's collection is valid
and owned by that Signal, and invalidation happens in the same atomic step
(the same critical section) as removal from the collection, so the invariant
holds in every state between operations. -/
theorem c6_ops_preserve_invariant (w w' : World) (op : Op) (hwf : w.WF)
    (hstep : step w op = some w') : w'.WF :=
  WF_step hwf hstep

/-- Witness for C6: disconnect-all on the two-connection demo world keeps the
invariant. -/
theorem c6_ops_preserve_invariant_witness :
    (Signal.disconnectAllLocked demoWorld2 0).WF :=
  c6_ops_preserve_invariant demoWorld2 (Signal.disconnectAllLocked demoWorld2 0)
    (Op.disconnectAll 0) (WF_of_wfb (by decide)) (by decide)

/-- C7: when a slot raises a failure during emission, the failure propagates
out of emit unchanged, the slots after the failing one in that emission are
not invoked, and the Signal's state is untouched: the returned world is the
input world, and the failing record is still in the collection, still
valid. -/
theorem c7_slot_failure_propagates {α ε : Type} (w : World) (s : SigPtr) (sig : SigState)
    (interp : SlotId → α → Except ε Unit) (a : α) (l1 : List RecPtr) (q : RecPtr)
    (l2 : List RecPtr) (e : ε)
    (hs : w.signal? s = some sig) (hv : sig.valid = true) (hwf : w.WF)
    (hrev : sig.connections.reverse = l1 ++ q :: l2)
    (hok1 : ∀ p ∈ l1, interp (w.slotOf p) a = Except.ok ())
    (hfail : interp (w.slotOf q) a = Except.error e) :
    Signal.emitRun w s interp a =
      (w, l1.map (fun p => (w.slotOf p, a)) ++ [(w.slotOf q, a)],
        EmitResult.slotFail e) ∧
    Connection.valid w q = some true := by
  have hlive := WF_live hwf hs
  have hl1 : ∀ p ∈ l1, Connection.valid w p = some true := fun p hp =>
    hlive p (List.mem_reverse.mp (by rw [hrev]; exact List.mem_append_left _ hp))
  have hq : Connection.valid w q = some true :=
    hlive q (List.mem_reverse.mp
      (by rw [hrev]; exact List.mem_append_right _ (List.mem_cons_self q l2)))
  exact ⟨emitRun_of_fail hs hv hrev hl1 hok1 hq hfail, hq⟩

/-- Witness for C7: on the two-slot demo signal, the first-called slot (slot
8) fails with error 42; the emission returns exactly that one call and the
propagated error, leaving the world as it was and the record valid. -/
theorem c7_slot_failure_propagates_witness :
    Signal.emitRun demoWorld2 0
      (fun i _ => if i == 8 then (Except.error 42 : Except Nat Unit) else Except.ok ())
      (5 : Nat) =
      (demoWorld2, [(8, 5)], EmitResult.slotFail 42) ∧
    Connection.valid demoWorld2 1 = some true := by
  have h := c7_slot_failure_propagates demoWorld2 0 ⟨[0, 1], true⟩
    (fun i _ => if i == 8 then (Except.error 42 : Except Nat Unit) else Except.ok ())
    5 [] 1 [0] 42 (by decide) rfl (WF_of_wfb (by decide)) (by decide)
    (fun p hp => absurd hp (List.not_mem_nil p)) rfl
  refine ⟨?_, h.2⟩
  rw [h.1]
  decide

/-- C8: moving a Signal (assignment or construction) keeps every existing
connection live, repoints every record's owner back-reference at the new
Signal (so Connection::disconnect routes to the new owner), emits every
moved connection correctly from the new location, and leaves the moved-from
Signal behaving as empty: emitting on it calls nothing. -/
theorem c8_move_preserves_connections {α ε : Type} (w : World) (dst src : SigPtr)
    (sigd sigs : SigState) (interp : SlotId → α → Except ε Unit) (a : α)
    (hwf : w.WF) (hdst : w.signal? dst = some sigd) (hsrc : w.signal? src = some sigs)
    (hne : dst ≠ src) (hok : ∀ i b, interp i b = Except.ok ()) :
    ((Signal.moveAssign w dst src).signal? dst = some ⟨sigs.connections, true⟩ ∧
     (Signal.moveAssign w dst src).signal? src = some ⟨[], false⟩ ∧
     (∀ p ∈ sigs.connections, ∃ r, w.record? p = some r ∧
       (Signal.moveAssign w dst src).record? p =
         some (ConnectionData.updateSignal r dst) ∧
       Connection.valid (Signal.moveAssign w dst src) p = some true) ∧
     (∀ p ∈ sigs.connections, Connection.disconnect (Signal.moveAssign w dst src) p =
       Signal.disconnect (Signal.moveAssign w dst src) dst p) ∧
     Signal.emitRun (Signal.moveAssign w dst src) dst interp a =
       (Signal.moveAssign w dst src,
        sigs.connections.reverse.map
          (fun p => ((Signal.moveAssign w dst src).slotOf p, a)),
        EmitResult.ok) ∧
     (Signal.emitRun (Signal.moveAssign w dst src) src interp a).2.1 = []) ∧
    ((Signal.moveConstruct w src).1.signal? (Signal.moveConstruct w src).2 =
       some ⟨sigs.connections, true⟩ ∧
     (Signal.moveConstruct w src).1.signal? src = some ⟨[], false⟩ ∧
     (∀ p ∈ sigs.connections, ∃ r, w.record? p = some r ∧
       (Signal.moveConstruct w src).1.record? p =
         some (ConnectionData.updateSignal r (Signal.moveConstruct w src).2)) ∧
     (Signal.emitRun (Signal.moveConstruct w src).1 src interp a).2.1 = []) := by
  have hdisj : ∀ p ∈ sigs.connections, p ∉ sigd.connections := fun p hp =>
    WF_not_mem_other hwf hdst hsrc (Ne.symm hne) hp
  obtain ⟨hsd, hss, hsother, hrec⟩ := moveBody_spec hdst hsrc hne hdisj
  obtain ⟨hndS, hmemS⟩ := hwf src sigs hsrc
  have hrecs : ∀ p ∈ sigs.connections, ∃ r, w.record? p = some r ∧
      (Signal.moveBody w dst src).record? p = some (ConnectionData.updateSignal r dst) ∧
      Connection.valid (Signal.moveBody w dst src) p = some true := by
    intro p hp
    obtain ⟨r, hr2, hv2, hs2⟩ := hmemS p hp
    have hrp : (Signal.moveBody w dst src).record? p =
        some (ConnectionData.updateSignal r dst) := by
      rw [hrec p, if_pos hp, hr2]
      rfl
    exact ⟨r, hr2, hrp, by simp [Connection.valid, hrp, ConnectionData.updateSignal, hv2]⟩
  have hvalid : ∀ p ∈ sigs.connections,
      Connection.valid (Signal.moveBody w dst src) p = some true := by
    intro p hp
    obtain ⟨r, hr2, hrp, hvp⟩ := hrecs p hp
    exact hvp
  constructor
  · have hMA : Signal.moveAssign w dst src = Signal.moveBody w dst src := rfl
    rw [hMA]
    refine ⟨hsd, hss, hrecs, ?_, ?_, emitRun_empty interp a hss⟩
    · intro p hp
      obtain ⟨r, hr2, hrp, hvp⟩ := hrecs p hp
      unfold Connection.disconnect
      rw [hrp]
      dsimp only [ConnectionData.updateSignal]
      rw [hsd]
    · exact @emitRun_of_ok α ε (Signal.moveBody w dst src) dst ⟨sigs.connections, true⟩
        interp a hsd rfl hvalid hok
  · have hlt := signal?_lt_length hsrc
    have hdext := signal?_extend_self w
    have hsext : ({ w with signals := w.signals ++ [some ⟨[], true⟩] } : World).signal?
        src = some sigs := by
      rw [signal?_extend_lt hlt]
      exact hsrc
    have hneX : w.signals.length ≠ src := Nat.ne_of_gt hlt
    have hdisjX : ∀ p ∈ sigs.connections,
        p ∉ (⟨[], true⟩ : SigState).connections := by
      intro p hp
      simp
    obtain ⟨hsdX, hssX, hsoX, hrecX⟩ := moveBody_spec hdext hsext hneX hdisjX
    refine ⟨hsdX, hssX, ?_, emitRun_empty interp a hssX⟩
    intro p hp
    obtain ⟨r, hr2, hv2, hs2⟩ := hmemS p hp
    refine ⟨r, hr2, ?_⟩
    show (Signal.moveBody { w with signals := w.signals ++ [some ⟨[], true⟩] }
      w.signals.length src).record? p =
      some (ConnectionData.updateSignal r w.signals.length)
    rw [hrecX p, if_pos hp]
    have hr2X : ({ w with signals := w.signals ++ [some ⟨[], true⟩] } : World).record? p =
        some r := hr2
    rw [hr2X]
    rfl

/-- Witness for C8: moving the one-connection signal of demoWorld3 between
the two signal objects keeps the connection live at the new location, routes
its disconnect there, emits it from the new location, and the moved-from
signal emits nothing. -/
theorem c8_move_preserves_connections_witness :
    (Signal.moveAssign demoWorld3 0 1).signal? 0 = some ⟨[0], true⟩ ∧
    (Signal.moveAssign demoWorld3 0 1).signal? 1 = some ⟨[], false⟩ ∧
    Connection.valid (Signal.moveAssign demoWorld3 0 1) 0 = some true ∧
    Connection.disconnect (Signal.moveAssign demoWorld3 0 1) 0 =
      Signal.disconnect (Signal.moveAssign demoWorld3 0 1) 0 0 ∧
    (Signal.emitRun (Signal.moveAssign demoWorld3 0 1) 0
      (fun _ _ => (Except.ok () : Except Unit Unit)) (5 : Nat)).2.1 = [(7, 5)] ∧
    (Signal.emitRun (Signal.moveAssign demoWorld3 0 1) 1
      (fun _ _ => (Except.ok () : Except Unit Unit)) (5 : Nat)).2.1 = [] := by
  have h := c8_move_preserves_connections demoWorld3 0 1 ⟨[], false⟩ ⟨[0], true⟩
    (fun _ _ => (Except.ok () : Except Unit Unit)) 5 (WF_of_wfb (by decide))
    (by decide) (by decide) (by decide) (fun _ _ => rfl)
  refine ⟨h.1.1, h.1.2.1, ?_, h.1.2.2.2.1 0 (by decide), ?_, h.1.2.2.2.2.2⟩
  · obtain ⟨r, h1, h2, h3⟩ := h.1.2.2.1 0 (by decide)
    exact h3
  · rw [h.1.2.2.2.2.1]
    decide

/-- C9: the claim says every connect assigns a monotonically increasing
64-bit identifier never reused, with handle equality comparing identifiers.
The counter in connectLocked is indeed a uint64_t atomic, but
buildConnection and ConnectionData::_id store it as uint32_t, so the stored
identifier is the counter truncated mod 2^32: the connect numbered 2^32
stores id 0 again, and the resulting Connection compares equal to the very
first one even though they reference different records. -/
theorem beq_of_idOf {w : World} {p q : RecPtr} {i : Nat}
    (hp : Connection.idOf w p = some i) (hq : Connection.idOf w q = some i) :
    Connection.beq w p q = some true := by
  unfold Connection.beq
  rw [hp, hq]
  simp

theorem c9_stored_id_truncated_and_reused :
    Connection.idOf (connectN (U32 + 1)) 0 = some 0 ∧
    Connection.idOf (connectN (U32 + 1)) U32 = some 0 ∧
    Connection.beq (connectN (U32 + 1)) 0 U32 = some true := by
  obtain ⟨-, -, -, hrec⟩ := connectN_spec (U32 + 1)
  have h0 := hrec 0 (Nat.succ_pos U32)
  have h1 := hrec U32 (Nat.lt_succ_self U32)
  rw [Nat.zero_mod] at h0
  rw [Nat.mod_self] at h1
  have hid0 : Connection.idOf (connectN (U32 + 1)) 0 = some 0 := by
    unfold Connection.idOf
    rw [h0]
    rfl
  have hid1 : Connection.idOf (connectN (U32 + 1)) U32 = some 0 := by
    unfold Connection.idOf
    rw [h1]
    rfl
  exact ⟨hid0, hid1, beq_of_idOf hid0 hid1⟩

/-- C10: a copy of a Connection handle shares the same record (the copy
constructor copies the shared_ptr): the two handles compare equal, always
agree on valid(), and after a successful disconnect through the handle or
through the Signal both report invalid. -/
theorem c10_copy_aliases_record (w : World) (p : RecPtr) (r : ConnectionData)
    (hr : w.record? p = some r) :
    Connection.beq w p (Connection.copy p) = some true ∧
    Connection.valid w (Connection.copy p) = Connection.valid w p ∧
    (∀ w2, Connection.disconnect w p = some (w2, true) →
      Connection.valid w2 p = some false ∧
      Connection.valid w2 (Connection.copy p) = some false) ∧
    (∀ s w2, Signal.disconnect w s p = some (w2, true) →
      Connection.valid w2 p = some false ∧
      Connection.valid w2 (Connection.copy p) = some false) := by
  have hdl : ∀ s w2, Signal.disconnectLocked w s p = some (w2, true) →
      Connection.valid w2 p = some false := by
    intro s w2 h
    obtain ⟨sig, hsig, hv, hcase⟩ := disconnectLocked_some h
    rcases hcase with ⟨hb, hpmem, hw2⟩ | ⟨hb, hpmem, hw2⟩
    · subst hw2
      have hrec2 : ((w.modifyRec p ConnectionData.invalidate).setSig s
          (some { sig with connections := sig.connections.erase p })).record? p =
          some (ConnectionData.invalidate r) := by
        rw [record?_setSig, record?_modifyRec_self, hr]
        rfl
      simp [Connection.valid, hrec2, ConnectionData.invalidate]
    · exact absurd hb (by decide)
  refine ⟨?_, rfl, ?_, ?_⟩
  · simp [Connection.beq, Connection.idOf, Connection.copy, hr]
  · intro w2 h
    unfold Connection.disconnect at h
    split at h
    · exact absurd h (by simp)
    · split at h
      · exact absurd h (by simp)
      · unfold Signal.disconnect at h
        exact ⟨hdl _ _ h, hdl _ _ h⟩
  · intro s w2 h
    unfold Signal.disconnect at h
    exact ⟨hdl _ _ h, hdl _ _ h⟩

/-- Witness for C10 on the one-connection demo world: handle 0 and its copy
compare equal, agree on validity, and after disconnecting through the handle
both report invalid. -/
theorem c10_copy_aliases_record_witness :
    Connection.beq demoWorld1 0 (Connection.copy 0) = some true ∧
    Connection.valid demoWorld1 (Connection.copy 0) = Connection.valid demoWorld1 0 ∧
    Connection.valid ⟨[⟨0, false, 7, 0⟩], [some ⟨[], true⟩], 1⟩ 0 = some false ∧
    Connection.valid ⟨[⟨0, false, 7, 0⟩], [some ⟨[], true⟩], 1⟩ (Connection.copy 0) =
      some false := by
  have h := c10_copy_aliases_record demoWorld1 0 ⟨0, true, 7, 0⟩ (by decide)
  have h2 := h.2.2.1 ⟨[⟨0, false, 7, 0⟩], [some ⟨[], true⟩], 1⟩ (by decide)
  exact ⟨h.1, h.2.1, h2.1, h2.2⟩

end Moment
